import Mathlib

/-!
Shallow embedding of the `virus_alert` simulation library.

The modelled sources are `src/individual.rs`, `src/population.rs`,
`src/board.rs`, `src/simulation.rs` and `src/lib.rs`.  The crate's
`building.rs` and `recording.rs` are not among the analysed sources; the
spec treats `Building` and `Recording` as external collaborators and
specifies only the interface the core needs, so those two components are
modelled from the spec (each such definition carries a doc comment that
starts with `Modelled from the spec:`).

Randomness (`rand::thread_rng`, `SliceRandom::shuffle`) is external to the
crate; its only documented effect is to rearrange the sequence into a
permutation of itself, so every stochastic operation is parameterised by
the rearrangement the generator produces, and theorems assume that the
rearrangement is a permutation of its input.
-/

/-- Individual in the game (src/individual.rs); a person's health state. -/
inductive Individual
  | Healthy
  | Infected1
  | Infected2
  | Infected3
  | Sick
  | Immune
  deriving DecidableEq, Repr

/-- Recoverable action errors of the crate (src/lib.rs, `errors::ActionError`). -/
inductive ActionError
  | NoHealthyLeft
  | NoImmuneLeft
  deriving DecidableEq, Repr

/-- Modelled from the spec: the spreading-mode tag of `building.rs`
(not among the analysed sources).  The spec treats it as an opaque tag
shared by all buildings of a board; `OneNear` is the default named in the
doc tests of `board.rs`.  The other variants stand for the remaining
modes; only distinctness and a total order (for the `min`/`max` check of
`Board::new`) matter to the core. -/
inductive Spreading
  | OneNear
  | TwoNear
  | Everyone
  deriving DecidableEq, Repr

/-- Numeric rank of a spreading mode, standing for the derived total
order used by the `min`/`max` comparison in `Board::new`. -/
def Spreading.toNat : Spreading → Nat
  | Spreading.OneNear => 0
  | Spreading.TwoNear => 1
  | Spreading.Everyone => 2

/-- Population of the game (src/population.rs): the ordered sequence of
individuals plus the single-pass sampling cursor. -/
structure Population where
  population : List Individual
  counter : Nat
  deriving DecidableEq, Repr

/-- `From<Vec<Individual>> for Population` (src/population.rs): wraps a
sequence with the cursor at the start. -/
def Population.ofList (vec : List Individual) : Population :=
  ⟨vec, 0⟩

/-- `Population::len` (src/population.rs). -/
def Population.len (p : Population) : Nat :=
  p.population.length

/-- `Population::counting` (src/population.rs): number of individuals
equal to the query. -/
def Population.counting (p : Population) (query : Individual) : Nat :=
  p.population.count query

/-- Scan of `Population::immunize` (src/population.rs): find the first
`Healthy` element and replace it by `Immune`; `none` when no element is
`Healthy`. -/
def immunizeFrom : List Individual → Option (List Individual)
  | [] => none
  | i :: rest =>
    if i = Individual.Healthy then some (Individual.Immune :: rest)
    else (immunizeFrom rest).map (fun tail => i :: tail)

/-- `Population::immunize` (src/population.rs): convert the first
`Healthy` individual to `Immune`, or fail with `NoHealthyLeft`. -/
def Population.immunize (p : Population) : Except ActionError Population :=
  match immunizeFrom p.population with
  | some l => Except.ok ⟨l, p.counter⟩
  | none => Except.error ActionError.NoHealthyLeft

/-- Scan of `Population::reverse_immunize` (src/population.rs): find the
first `Immune` element and replace it by `Healthy`. -/
def reverseImmunizeFrom : List Individual → Option (List Individual)
  | [] => none
  | i :: rest =>
    if i = Individual.Immune then some (Individual.Healthy :: rest)
    else (reverseImmunizeFrom rest).map (fun tail => i :: tail)

/-- `Population::reverse_immunize` (src/population.rs): convert the first
`Immune` individual back to `Healthy`, or fail with `NoImmuneLeft`. -/
def Population.reverse_immunize (p : Population) : Except ActionError Population :=
  match reverseImmunizeFrom p.population with
  | some l => Except.ok ⟨l, p.counter⟩
  | none => Except.error ActionError.NoImmuneLeft

/-- `Population::immunize` followed by `Population::reverse_immunize`,
the composition examined by the inverse property of the spec. -/
def Population.immunizeRoundTrip (p : Population) : Except ActionError Population :=
  p.immunize >>= Population.reverse_immunize

/-- `Population::update` (src/population.rs): replace the sequence; the
`assert_eq!` on the lengths is modelled by returning `none` (the panic)
when the new sequence's length differs from the current one. -/
def Population.update (p : Population) (new_population : List Individual) : Option Population :=
  if p.population.length = new_population.length then
    some ⟨new_population, p.counter⟩
  else
    none

/-- `Population::shuffle` (src/population.rs).  The reordering itself is
performed by `rand`'s `SliceRandom::shuffle`, which is external code; its
effect is modelled by the rearrangement function `rng` (theorems assume
`rng p.population` is a permutation of `p.population`).  The cursor is
reset to `0`. -/
def Population.shuffle (p : Population) (rng : List Individual → List Individual) : Population :=
  ⟨rng p.population, 0⟩

/-- `Iterator::next for Population` (src/population.rs): draw the element
at the cursor and advance the cursor; `none` once the cursor has reached
the end. -/
def Population.next (p : Population) : Option Individual × Population :=
  if h : p.counter < p.population.length then
    (some (p.population.get ⟨p.counter, h⟩), ⟨p.population, p.counter + 1⟩)
  else
    (none, p)

/-- `n` successive calls to `next`, collecting the drawn values. -/
def Population.nexts : Population → Nat → List (Option Individual) × Population
  | p, 0 => ([], p)
  | p, Nat.succ n =>
    let r := p.next
    let rest := r.2.nexts n
    (r.1 :: rest.1, rest.2)

/-- Modelled from the spec: the `Building` collaborator of `building.rs`
(not among the analysed sources).  The spec requires a fixed capacity, an
open/closed flag, a spreading-mode tag, and an occupant collection; the
per-cell grid layout is opaque to the core, so occupants are kept as a
sequence. -/
structure Building where
  capacity : Nat
  is_open : Bool
  people : List Individual
  spreading : Spreading
  deriving DecidableEq, Repr

/-- Modelled from the spec: `Building::is_full` — the building has no
free place left. -/
def Building.is_full (b : Building) : Bool :=
  decide (b.capacity ≤ b.people.length)

/-- Modelled from the spec: the building's opaque one-day contagion step
(`Building::propagate`).  The spec states it is an in-place disease
progression that replaces tags in place, so it is modelled as a map of an
arbitrary contagion rule `cg` (which may consult the whole occupant
collection) over the occupants. -/
def Building.propagate (cg : List Individual → Individual → Individual) (b : Building) : Building :=
  { b with people := (b.people.map (cg b.people)) }

/-- Modelled from the spec: the building after `Building::empty` — all
contents drained, the building left empty.  The drained contents are the
previous `people`. -/
def Building.emptied (b : Building) : Building :=
  { b with people := [] }

/-- Per-day, per-health-state count series.  Modelled from the spec:
`CountingTable` lives in `recording.rs` (not among the analysed sources);
the spec specifies a mapping from each individual state to an
ordered-by-day sequence of counts. -/
structure CountingTable where
  healthy : List Nat
  infected1 : List Nat
  infected2 : List Nat
  infected3 : List Nat
  sick : List Nat
  immune : List Nat
  deriving DecidableEq, Repr

/-- Modelled from the spec: `CountingTable::days` — the number of
recorded days; every state's series has one entry per registered day, so
the length of the `healthy` series is used. -/
def CountingTable.days (ct : CountingTable) : Nat :=
  ct.healthy.length

/-- The day series of one health state of the table. -/
def CountingTable.row (ct : CountingTable) : Individual → List Nat
  | Individual.Healthy => ct.healthy
  | Individual.Infected1 => ct.infected1
  | Individual.Infected2 => ct.infected2
  | Individual.Infected3 => ct.infected3
  | Individual.Sick => ct.sick
  | Individual.Immune => ct.immune

/-- Modelled from the spec: the initial counting table of a fresh
recording — one column holding the count of each state in the initial
population (witnessed by the crate's `simulation::tests::run`, where a
0-day simulation reports exactly the initial counts). -/
def initialCountingTable (l : List Individual) : CountingTable :=
  ⟨[l.count Individual.Healthy], [l.count Individual.Infected1],
    [l.count Individual.Infected2], [l.count Individual.Infected3],
    [l.count Individual.Sick], [l.count Individual.Immune]⟩

/-- Modelled from the spec: the `Recording` collaborator of
`recording.rs` (not among the analysed sources); the core only needs the
counting table it exposes. -/
structure Recording where
  counting_table : CountingTable
  deriving DecidableEq, Repr

/-- Modelled from the spec: `Recording::new` — a fresh recording whose
table holds the initial population counts (one column). -/
def Recording.new (population : Population) (_buildings : List Building) : Recording :=
  ⟨initialCountingTable population.population⟩

/-- Modelled from the spec: `Recording::register` — appends one day's
snapshot, growing every state's series by exactly one entry.  The values
of the appended entries are computed inside `recording.rs`, which is not
among the analysed sources and whose rule the spec does not state, so the
model appends a placeholder count of zero per state; no analysed claim
depends on the appended values. -/
def Recording.register (r : Recording) (_newly_infected : Nat) (_buildings : List Building) : Recording :=
  ⟨⟨r.counting_table.healthy ++ [0], r.counting_table.infected1 ++ [0],
    r.counting_table.infected2 ++ [0], r.counting_table.infected3 ++ [0],
    r.counting_table.sick ++ [0], r.counting_table.immune ++ [0]⟩⟩

/-- State of the game (src/board.rs): population, buildings, the
stay-home set and the recording device. -/
structure Board where
  population : Population
  buildings : List Building
  inactive : List Individual
  recording : Recording
  deriving DecidableEq, Repr

/-- Minimum of the iterator over a list, as computed by Rust's
`Iterator::min` (`None` on an empty list). -/
def iterMin : List Nat → Option Nat
  | [] => none
  | x :: xs => some (xs.foldl Nat.min x)

/-- Maximum of the iterator over a list, as computed by Rust's
`Iterator::max` (`None` on an empty list). -/
def iterMax : List Nat → Option Nat
  | [] => none
  | x :: xs => some (xs.foldl Nat.max x)

/-- `Board::new` (src/board.rs): builds the board with an empty inactive
set and a fresh recording; the `assert_eq!` comparing the minimum and
maximum of the buildings' spreading modes is modelled by returning `none`
(the panic) when they differ. -/
def Board.new (population : Population) (buildings : List Building) : Option Board :=
  if iterMin (buildings.map (fun b => b.spreading.toNat))
      = iterMax (buildings.map (fun b => b.spreading.toNat)) then
    some ⟨population, buildings, [], Recording.new population buildings⟩
  else
    none

/-- The loop body of `Board::visit_building` (src/board.rs): while the
building is neither full nor closed, draw the next individual; a `Sick`
draw is diverted to the inactive set, any other draw is pushed into the
building.  `rem` is the undrawn remainder of the population sequence. -/
def visitLoop : List Individual → List Individual → Building →
    List Individual × List Individual × Building
  | [], inact, bld => ([], inact, bld)
  | i :: rest, inact, bld =>
    if bld.is_full || !bld.is_open then (i :: rest, inact, bld)
    else if i = Individual.Sick then visitLoop rest (inact ++ [i]) bld
    else visitLoop rest inact { bld with people := bld.people ++ [i] }

/-- The loop of `Board::visit` over the buildings (src/board.rs),
threading the undrawn remainder and the inactive set through
`visit_building` for each building in order. -/
def visitAll : List Building → List Individual → List Individual →
    List Building × List Individual × List Individual
  | [], rem, inact => ([], rem, inact)
  | bld :: rest, rem, inact =>
    let r1 := visitLoop rem inact bld
    let r2 := visitAll rest r1.1 r1.2.1
    (r1.2.2 :: r2.1, r2.2.1, r2.2.2)

/-- `Board::visit` (src/board.rs): shuffle the population (resetting the
cursor), visit every building in order, then extend the inactive set with
the undrawn remainder of the population.  The population sequence itself
is unchanged apart from the shuffle; its cursor ends at the number of
drawn individuals. -/
def Board.visit (b : Board) (rng : List Individual → List Individual) : Board :=
  let shuffled := b.population.shuffle rng
  let result := visitAll b.buildings shuffled.population b.inactive
  { population := ⟨shuffled.population, shuffled.population.length - result.2.1.length⟩,
    buildings := result.1,
    inactive := result.2.2 ++ result.2.1,
    recording := b.recording }

/-- The disease-clock match of `Board::propagate` (src/board.rs) applied
to each inactive individual. -/
def diseaseStep : Individual → Individual
  | Individual.Infected1 => Individual.Infected2
  | Individual.Infected2 => Individual.Infected3
  | Individual.Infected3 => Individual.Sick
  | i => i

/-- `Board::propagate` (src/board.rs): every building runs its own
contagion step and every inactive individual's disease clock advances by
one stage. -/
def Board.propagate (b : Board) (cg : List Individual → Individual → Individual) : Board :=
  { b with
    buildings := b.buildings.map (Building.propagate cg),
    inactive := b.inactive.map diseaseStep }

/-- The concatenation of the buildings' occupants in building order, as
collected by the drain loop of `Board::go_home` (src/board.rs). -/
def peopleOf : List Building → List Individual
  | [] => []
  | bld :: rest => bld.people ++ peopleOf rest

/-- `Board::go_home` (src/board.rs): drain every building into a
combined sequence, count the drained individuals whose state is
`Infected1` (the day's newly infected), append the inactive set, and
rebuild the population from the combined sequence.  Returns the new board
and the newly-infected count. -/
def Board.go_home (b : Board) : Board × Nat :=
  let new_vec := peopleOf b.buildings
  let newly_infected := new_vec.count Individual.Infected1
  ({ population := Population.ofList (new_vec ++ b.inactive),
     buildings := b.buildings.map Building.emptied,
     inactive := [],
     recording := b.recording }, newly_infected)

/-- `Board::advance_population` (src/board.rs): visit, propagate, then
go home; returns the board and the number of newly infected. -/
def Board.advance_population (b : Board) (rng : List Individual → List Individual)
    (cg : List Individual → Individual → Individual) : Board × Nat :=
  ((b.visit rng).propagate cg).go_home

/-- `Board::advance` (src/board.rs): one full day cycle, after which the
newly-infected count and the buildings are registered in the recording. -/
def Board.advance (b : Board) (rng : List Individual → List Individual)
    (cg : List Individual → Individual → Individual) : Board :=
  let r := b.advance_population rng cg
  { r.1 with recording := r.1.recording.register r.2 r.1.buildings }

/-- `Board::advance_many` (src/board.rs): repeat `advance` the given
number of times; `rngs d` is the rearrangement the random generator
produces on day `d`. -/
def Board.advance_many (b : Board) (num_stages : Nat)
    (rngs : Nat → List Individual → List Individual)
    (cg : List Individual → Individual → Individual) : Board :=
  match num_stages with
  | 0 => b
  | Nat.succ m => Board.advance_many (b.advance (rngs 0) cg) m (fun d => rngs (d + 1)) cg

/-- `Board::counting_table` (src/board.rs). -/
def Board.counting_table (b : Board) : CountingTable :=
  b.recording.counting_table

/-- `Board::spreading` (src/board.rs): reads the shared mode from the
first building; the out-of-bounds index on a board without buildings is
modelled by `none` (the panic). -/
def Board.spreading (b : Board) : Option Spreading :=
  match b.buildings with
  | [] => none
  | bld :: _ => some bld.spreading

/-- `BoardBuilder` (src/board.rs): initial counts per health state, the
building sizes and the shared spreading mode. -/
structure BoardBuilder where
  healthy : Nat
  infected1 : Nat
  infected2 : Nat
  infected3 : Nat
  sick : Nat
  immune : Nat
  buildings : List (Nat × Nat)
  spreading : Spreading
  deriving DecidableEq, Repr

/-- `BoardBuilder::build` (src/board.rs): the population is the
concatenation of the per-state blocks; each `(cols, rows)` pair becomes
an open, empty building of capacity `cols * rows` with the shared
spreading mode (`BuildingBuilder` is modelled from the spec).  The
`Board::new` assertion always passes here because every building carries
the same mode, so the successful body of `Board::new` is inlined. -/
def BoardBuilder.build (bb : BoardBuilder) : Board :=
  let population_vec :=
    List.replicate bb.healthy Individual.Healthy
      ++ List.replicate bb.infected1 Individual.Infected1
      ++ List.replicate bb.infected2 Individual.Infected2
      ++ List.replicate bb.infected3 Individual.Infected3
      ++ List.replicate bb.sick Individual.Sick
      ++ List.replicate bb.immune Individual.Immune
  let population := Population.ofList population_vec
  let buildings := bb.buildings.map (fun cr =>
    { capacity := cr.1 * cr.2, is_open := true, people := [], spreading := bb.spreading })
  ⟨population, buildings, [], Recording.new population buildings⟩

/-- `ReportPlan` (src/simulation.rs). -/
structure ReportPlan where
  num_simulations : Nat
  days : Nat
  deriving DecidableEq, Repr

/-- `Simulation` (src/simulation.rs). -/
structure Simulation where
  board : Board
  report_plan : ReportPlan
  deriving DecidableEq, Repr

/-- `SimulationBuilder` (src/simulation.rs). -/
structure SimulationBuilder where
  board_builder : BoardBuilder
  report_plan : ReportPlan
  deriving DecidableEq, Repr

/-- `SimulationBuilder::build` (src/simulation.rs). -/
def SimulationBuilder.build (sb : SimulationBuilder) : Simulation :=
  ⟨sb.board_builder.build, sb.report_plan⟩

/-- `Report` (src/simulation.rs): one counting table per replicate. -/
structure Report where
  counting_tables : List CountingTable
  deriving DecidableEq, Repr

/-- `Simulation::run` (src/simulation.rs): clone the template board for
each replicate, advance it the planned number of days, and collect the
final counting tables.  `rngs rep d` is the rearrangement the random
generator produces on day `d` of replicate `rep`. -/
def Simulation.run (s : Simulation)
    (rngs : Nat → Nat → List Individual → List Individual)
    (cg : List Individual → Individual → Individual) : Report :=
  ⟨(List.range s.report_plan.num_simulations).map (fun rep =>
      (s.board.advance_many s.report_plan.days (rngs rep) cg).counting_table)⟩

/-- `Report::healthy` (src/simulation.rs): the healthy series of every
replicate.  (In the model the counting table carries every state's
series, so the lookup of the `Healthy` key always succeeds.) -/
def Report.healthy (r : Report) : List (List Nat) :=
  r.counting_tables.map CountingTable.healthy

/-- The fixed enumeration order of the health states
(`Individual::iter`). -/
def individualVariants : List Individual :=
  [Individual.Healthy, Individual.Infected1, Individual.Infected2,
    Individual.Infected3, Individual.Sick, Individual.Immune]

/-- Shape-and-samples model of the `Array2<average::Variance>` returned
by `Report::average_counting_table`: the dimensions of the array and, per
cell, the list of per-replicate samples fed into the `Variance`
accumulator (the accumulator's floating-point mean/error are not
modelled; every analysed claim concerns only the shape). -/
structure Array2Acc where
  dim : Nat × Nat
  cells : List (List (List Nat))
  deriving DecidableEq, Repr

/-- `Report::average_counting_table` (src/simulation.rs): with no
replicates, an array of one row per state and zero columns; otherwise one
row per state and one column per day of the first table, each cell
collecting the per-replicate counts at that (state, day). -/
def Report.average_counting_table (r : Report) : Array2Acc :=
  match r.counting_tables with
  | [] => ⟨(individualVariants.length, 0), List.replicate individualVariants.length []⟩
  | ct :: _ =>
    ⟨(individualVariants.length, ct.days),
      individualVariants.map (fun st =>
        (List.range ct.days).map (fun col =>
          r.counting_tables.map (fun t => (t.row st).getD col 0)))⟩

/-- `Report::healthy_transpose` (src/simulation.rs): day-major view of
the healthy series.  The function indexes `counting_tables()[0]`
unconditionally; the out-of-bounds panic on a report without tables is
modelled by `none`. -/
def Report.healthy_transpose (r : Report) : Option (List (List Nat)) :=
  match r.counting_tables with
  | [] => none
  | ct :: _ =>
    some ((List.range ct.days).map (fun day =>
      r.healthy.map (fun realization => realization.getD day 0)))

/-- `Report::average_healthy` (src/simulation.rs): per-day samples of
the healthy counts across replicates (the cells of the `Variance`
accumulators).  The function indexes `counting_tables()[0]`
unconditionally; the out-of-bounds panic on a report without tables is
modelled by `none`. -/
def Report.average_healthy (r : Report) : Option (List (List Nat)) :=
  match r.counting_tables with
  | [] => none
  | ct :: _ =>
    some ((List.range ct.days).map (fun day =>
      r.healthy.map (fun realization => realization.getD day 0)))

/-- Predicate used by the visit step: the drawn individual is `Sick`. -/
def isSickB (i : Individual) : Bool :=
  decide (i = Individual.Sick)

theorem visitLoop_spec : ∀ (rem inact : List Individual) (bld : Building),
    ∃ c : List Individual,
      rem = c ++ (visitLoop rem inact bld).1 ∧
      (visitLoop rem inact bld).2.1 = inact ++ c.filter isSickB ∧
      (visitLoop rem inact bld).2.2.people
        = bld.people ++ c.filter (fun i => !isSickB i)
  | [], inact, bld => ⟨[], by simp [visitLoop]⟩
  | i :: rest, inact, bld => by
    by_cases hstop : (bld.is_full || !bld.is_open) = true
    · exact ⟨[], by simp [visitLoop, hstop]⟩
    · by_cases hsick : i = Individual.Sick
      · obtain ⟨c, h1, h2, h3⟩ := visitLoop_spec rest (inact ++ [i]) bld
        refine ⟨i :: c, ?_, ?_, ?_⟩
        · simpa [visitLoop, hstop, hsick] using h1
        · simpa [visitLoop, hstop, hsick, isSickB, List.append_assoc] using h2
        · simpa [visitLoop, hstop, hsick, isSickB] using h3
      · obtain ⟨c, h1, h2, h3⟩ :=
          visitLoop_spec rest inact { bld with people := bld.people ++ [i] }
        refine ⟨i :: c, ?_, ?_, ?_⟩
        · simpa [visitLoop, hstop, hsick] using h1
        · simpa [visitLoop, hstop, hsick, isSickB] using h2
        · simpa [visitLoop, hstop, hsick, isSickB, List.append_assoc] using h3

theorem visitAll_spec : ∀ (blds : List Building) (rem inact : List Individual),
    ∃ c : List Individual,
      rem = c ++ (visitAll blds rem inact).2.1 ∧
      (visitAll blds rem inact).2.2 = inact ++ c.filter isSickB ∧
      (peopleOf (visitAll blds rem inact).1).length
        = (peopleOf blds).length + (c.filter (fun i => !isSickB i)).length ∧
      ∀ x, (peopleOf (visitAll blds rem inact).1).count x
        = (peopleOf blds).count x + (c.filter (fun i => !isSickB i)).count x
  | [], rem, inact => ⟨[], by simp [visitAll, peopleOf]⟩
  | bld :: rest, rem, inact => by
    obtain ⟨c1, h1, h2, h3⟩ := visitLoop_spec rem inact bld
    obtain ⟨c2, g1, g2, g3, g4⟩ :=
      visitAll_spec rest (visitLoop rem inact bld).1 (visitLoop rem inact bld).2.1
    have hv : visitAll (bld :: rest) rem inact
        = ((visitLoop rem inact bld).2.2
            :: (visitAll rest (visitLoop rem inact bld).1 (visitLoop rem inact bld).2.1).1,
          (visitAll rest (visitLoop rem inact bld).1 (visitLoop rem inact bld).2.1).2.1,
          (visitAll rest (visitLoop rem inact bld).1 (visitLoop rem inact bld).2.1).2.2) := rfl
    rw [hv]
    refine ⟨c1 ++ c2, ?_, ?_, ?_, ?_⟩
    · calc rem = c1 ++ (visitLoop rem inact bld).1 := h1
        _ = c1 ++ (c2 ++ (visitAll rest (visitLoop rem inact bld).1
              (visitLoop rem inact bld).2.1).2.1) := by rw [← g1]
        _ = (c1 ++ c2) ++ (visitAll rest (visitLoop rem inact bld).1
              (visitLoop rem inact bld).2.1).2.1 := by rw [List.append_assoc]
    · rw [g2, h2, List.filter_append, List.append_assoc]
    · simp only [peopleOf, List.length_append]
      rw [g3, h3]
      simp [List.filter_append, Nat.add_assoc, Nat.add_left_comm, Nat.add_comm]
    · intro x
      simp only [peopleOf, List.count_append]
      rw [g4 x, h3]
      simp [List.filter_append, List.count_append, Nat.add_assoc, Nat.add_left_comm,
        Nat.add_comm]

theorem visitAll_sick_free : ∀ (blds : List Building) (rem inact : List Individual),
    (∀ bld ∈ blds, Individual.Sick ∉ bld.people) →
    ∀ bld' ∈ (visitAll blds rem inact).1, Individual.Sick ∉ bld'.people
  | [], rem, inact => by intro _ bld' h'; simp [visitAll] at h'
  | bld :: rest, rem, inact => by
    intro hfree bld' hmem
    obtain ⟨c1, _, _, h3⟩ := visitLoop_spec rem inact bld
    simp only [visitAll, List.mem_cons] at hmem
    rcases hmem with hhead | htail
    · subst hhead
      rw [h3]
      intro hin
      rcases List.mem_append.mp hin with hl | hr
      · exact hfree bld (List.mem_cons_self bld rest) hl
      · have := (List.mem_filter.mp hr).2
        simp [isSickB] at this
    · exact visitAll_sick_free rest (visitLoop rem inact bld).1 (visitLoop rem inact bld).2.1
        (fun b hb => hfree b (List.mem_cons_of_mem bld hb)) bld' htail

theorem peopleOf_map_propagate_length (cg : List Individual → Individual → Individual) :
    ∀ blds : List Building,
      (peopleOf (blds.map (Building.propagate cg))).length = (peopleOf blds).length
  | [] => rfl
  | bld :: rest => by
    simp only [List.map_cons, peopleOf, List.length_append, Building.propagate,
      List.length_map]
    rw [peopleOf_map_propagate_length cg rest]

theorem peopleOf_eq_nil_of_empty : ∀ blds : List Building,
    (∀ bld ∈ blds, bld.people = []) → peopleOf blds = []
  | [] => fun _ => rfl
  | bld :: rest => by
    intro h
    simp only [peopleOf]
    rw [h bld (List.mem_cons_self bld rest),
      peopleOf_eq_nil_of_empty rest (fun b hb => h b (List.mem_cons_of_mem bld hb))]
    rfl

/-- C3: one call to `Board::propagate` maps each individual of the
inactive set by exactly one disease stage: `Infected1` becomes
`Infected2`, `Infected2` becomes `Infected3`, `Infected3` becomes `Sick`,
and `Healthy`, `Sick` and `Immune` individuals of the inactive set are
unchanged. -/
theorem propagate_steps_inactive_clock (b : Board)
    (cg : List Individual → Individual → Individual) :
    (b.propagate cg).inactive = b.inactive.map diseaseStep ∧
    diseaseStep Individual.Infected1 = Individual.Infected2 ∧
    diseaseStep Individual.Infected2 = Individual.Infected3 ∧
    diseaseStep Individual.Infected3 = Individual.Sick ∧
    diseaseStep Individual.Healthy = Individual.Healthy ∧
    diseaseStep Individual.Sick = Individual.Sick ∧
    diseaseStep Individual.Immune = Individual.Immune :=
  ⟨rfl, rfl, rfl, rfl, rfl, rfl, rfl⟩

/-- C4: the value returned by `Board::go_home` equals the number of
individuals drained from the buildings whose state is `Infected1`;
individuals of the inactive set are never counted, whatever their state,
as witnessed by the count being invariant under any replacement of the
inactive set. -/
theorem go_home_counts_only_drained (b : Board) :
    (Board.go_home b).2 = (peopleOf b.buildings).count Individual.Infected1 ∧
    ∀ inact : List Individual,
      (Board.go_home { b with inactive := inact }).2 = (Board.go_home b).2 :=
  ⟨rfl, fun _ => rfl⟩

/-- C1 (amended): for every board whose inactive set is empty and whose
buildings are all empty — the state produced by `Board::new` and by the
builders, and re-established at the end of every day —, one full day
cycle `Board::advance` (visit, then propagate, then go home) conserves
the population cardinality; moreover the cycle re-establishes the empty
inactive set and empty buildings, so the conservation holds on every
subsequent day as well. -/
theorem advance_card_conservation (b : Board)
    (rng : List Individual → List Individual)
    (cg : List Individual → Individual → Individual)
    (hperm : (rng b.population.population).Perm b.population.population)
    (hin : b.inactive = [])
    (hbld : ∀ bld ∈ b.buildings, bld.people = []) :
    (b.advance rng cg).population.population.length = b.population.population.length ∧
    (b.advance rng cg).inactive = [] ∧
    ∀ bld ∈ (b.advance rng cg).buildings, bld.people = [] := by
  refine ⟨?_, rfl, ?_⟩
  · have hres :
        (b.advance rng cg).population.population
          = peopleOf ((b.visit rng).propagate cg).buildings
              ++ ((b.visit rng).propagate cg).inactive := rfl
    have h1 : ((b.visit rng).propagate cg).buildings
        = (b.visit rng).buildings.map (Building.propagate cg) := rfl
    have h2 : ((b.visit rng).propagate cg).inactive
        = (b.visit rng).inactive.map diseaseStep := rfl
    rw [hres, List.length_append, h1, h2, peopleOf_map_propagate_length, List.length_map]
    obtain ⟨c, hc1, hc2, hc3, -⟩ :=
      visitAll_spec b.buildings (rng b.population.population) b.inactive
    have hb1 : (b.visit rng).buildings
        = (visitAll b.buildings (rng b.population.population) b.inactive).1 := rfl
    have hb2 : (b.visit rng).inactive
        = (visitAll b.buildings (rng b.population.population) b.inactive).2.2
            ++ (visitAll b.buildings (rng b.population.population) b.inactive).2.1 := rfl
    rw [hb1, hb2, hc3, hc2]
    have hpe : (peopleOf b.buildings).length = 0 := by
      rw [peopleOf_eq_nil_of_empty b.buildings hbld]; rfl
    have hinlen : b.inactive.length = 0 := by rw [hin]; rfl
    have hsplit := List.length_eq_length_filter_add (l := c) isSickB
    have hlen := congrArg List.length hc1
    rw [List.length_append] at hlen
    have hplen := hperm.length_eq
    simp only [List.length_append]
    omega
  · intro bld hmem
    have h3 : (b.advance rng cg).buildings
        = ((b.visit rng).propagate cg).buildings.map Building.emptied := rfl
    rw [h3] at hmem
    obtain ⟨x, -, rfl⟩ := List.mem_map.mp hmem
    rfl

/-- C1 witness: the amended conservation at a concrete one-person board
with one open building. -/
theorem advance_card_conservation_case :
    (Board.advance
        ⟨⟨[Individual.Healthy], 0⟩, [⟨1, true, [], Spreading.OneNear⟩], [],
          ⟨⟨[1], [0], [0], [0], [0], [0]⟩⟩⟩
        (fun l => l) (fun _ i => i)).population.population.length
      = (⟨⟨[Individual.Healthy], 0⟩, [⟨1, true, [], Spreading.OneNear⟩], [],
          ⟨⟨[1], [0], [0], [0], [0], [0]⟩⟩⟩ : Board).population.population.length :=
  (advance_card_conservation
    ⟨⟨[Individual.Healthy], 0⟩, [⟨1, true, [], Spreading.OneNear⟩], [],
      ⟨⟨[1], [0], [0], [0], [0], [0]⟩⟩⟩
    (fun l => l) (fun _ i => i) (by decide) rfl (by decide)).1

/-- C1 counterexample: on a board whose inactive set is not empty (a
state reachable through the public `visit`), one `advance` increases the
population length — the claim as stated over every board is false. -/
theorem advance_card_conservation_cex :
    ¬ ((Board.advance
          ⟨⟨[Individual.Healthy], 0⟩, [], [Individual.Healthy],
            ⟨⟨[], [], [], [], [], []⟩⟩⟩
          (fun l => l) (fun _ i => i)).population.population.length
        = (⟨⟨[Individual.Healthy], 0⟩, [], [Individual.Healthy],
            ⟨⟨[], [], [], [], [], []⟩⟩⟩ : Board).population.population.length) := by
  decide

/-- C2 (amended): for every board whose buildings contain no `Sick`
individual before the call (in particular the drained buildings at the
start of every day), immediately after `Board::visit` no building
contains a `Sick` individual; and — unconditionally on the buildings'
prior occupants — every `Sick` individual of the population ends up in
the inactive set: the `Sick` count of the inactive set grows by exactly
the `Sick` count of the population sequence. -/
theorem visit_sick_stay_home (b : Board) (rng : List Individual → List Individual)
    (hperm : (rng b.population.population).Perm b.population.population) :
    ((∀ bld ∈ b.buildings, Individual.Sick ∉ bld.people) →
      ∀ bld ∈ (b.visit rng).buildings, Individual.Sick ∉ bld.people) ∧
    (b.visit rng).inactive.count Individual.Sick
      = b.inactive.count Individual.Sick
        + b.population.population.count Individual.Sick := by
  constructor
  · intro hfree
    have hb1 : (b.visit rng).buildings
        = (visitAll b.buildings (rng b.population.population) b.inactive).1 := rfl
    rw [hb1]
    exact visitAll_sick_free b.buildings _ _ hfree
  · obtain ⟨c, hc1, hc2, -, -⟩ :=
      visitAll_spec b.buildings (rng b.population.population) b.inactive
    have hb2 : (b.visit rng).inactive
        = (visitAll b.buildings (rng b.population.population) b.inactive).2.2
            ++ (visitAll b.buildings (rng b.population.population) b.inactive).2.1 := rfl
    rw [hb2, hc2]
    have hcount : (rng b.population.population).count Individual.Sick
        = b.population.population.count Individual.Sick := hperm.count_eq _
    have hfc : (c.filter isSickB).count Individual.Sick = c.count Individual.Sick :=
      List.count_filter rfl
    have hsh := congrArg (List.count Individual.Sick) hc1
    rw [List.count_append] at hsh
    simp only [List.count_append]
    omega

/-- C2 witness: the amended statement at a concrete board whose
population holds one `Sick` and one `Healthy` individual and whose
single building starts without a `Sick` occupant. -/
theorem visit_sick_stay_home_case :
    (∀ bld ∈ (Board.visit
        ⟨⟨[Individual.Sick, Individual.Healthy], 0⟩, [⟨1, true, [], Spreading.OneNear⟩], [],
          ⟨⟨[1], [0], [0], [0], [1], [0]⟩⟩⟩
        (fun l => l)).buildings, Individual.Sick ∉ bld.people) ∧
    (Board.visit
        ⟨⟨[Individual.Sick, Individual.Healthy], 0⟩, [⟨1, true, [], Spreading.OneNear⟩], [],
          ⟨⟨[1], [0], [0], [0], [1], [0]⟩⟩⟩
        (fun l => l)).inactive.count Individual.Sick
      = ([] : List Individual).count Individual.Sick
        + ([Individual.Sick, Individual.Healthy]).count Individual.Sick :=
  ⟨(visit_sick_stay_home
      ⟨⟨[Individual.Sick, Individual.Healthy], 0⟩, [⟨1, true, [], Spreading.OneNear⟩], [],
        ⟨⟨[1], [0], [0], [0], [1], [0]⟩⟩⟩
      (fun l => l) (by decide)).1 (by decide),
    (visit_sick_stay_home
      ⟨⟨[Individual.Sick, Individual.Healthy], 0⟩, [⟨1, true, [], Spreading.OneNear⟩], [],
        ⟨⟨[1], [0], [0], [0], [1], [0]⟩⟩⟩
      (fun l => l) (by decide)).2⟩

/-- C2 counterexample: on a board whose single building already holds a
`Sick` occupant (a state constructible through `Board::new`, whose
buildings are caller-supplied), the building still contains a `Sick`
individual immediately after `visit` — the claim as stated over every
board is false. -/
theorem visit_sick_stay_home_cex :
    Individual.Sick ∈ peopleOf
      (Board.visit
        ⟨⟨[], 0⟩, [⟨1, true, [Individual.Sick], Spreading.OneNear⟩], [],
          ⟨⟨[], [], [], [], [], []⟩⟩⟩
        (fun l => l)).buildings := by
  decide

theorem nexts_exhausts : ∀ (n c : Nat) (l : List Individual), c + n = l.length →
    Population.nexts ⟨l, c⟩ n = ((l.drop c).map some, ⟨l, l.length⟩)
  | 0, c, l => by
    intro h
    simp only [Nat.add_zero] at h
    subst h
    simp [Population.nexts, List.drop_length]
  | Nat.succ n, c, l => by
    intro h
    have hlt : c < l.length := by omega
    have hnext : (⟨l, c⟩ : Population).next = (some l[c], ⟨l, c + 1⟩) := by
      simp [Population.next, hlt]
    have hrec := nexts_exhausts n (c + 1) l (by omega)
    rw [List.drop_eq_getElem_cons hlt, List.map_cons]
    simp [Population.nexts, hnext, hrec]

/-- C5: after `Population::shuffle`, the next `len` calls to `next`
return exactly the shuffled sequence — a permutation of the population's
content, hence every element exactly once, with no duplicates and no
omissions — and the call after that returns `none` (and leaves the
cursor in place). -/
theorem shuffle_then_draws_enumerate (p : Population)
    (rng : List Individual → List Individual)
    (hperm : (rng p.population).Perm p.population) :
    ((p.shuffle rng).nexts p.population.length).1 = (rng p.population).map some ∧
    (rng p.population).Perm p.population ∧
    (((p.shuffle rng).nexts p.population.length).2).next
      = (none, ((p.shuffle rng).nexts p.population.length).2) := by
  have hlen : (0 : Nat) + p.population.length = (rng p.population).length := by
    rw [hperm.length_eq]; omega
  have hmain := nexts_exhausts p.population.length 0 (rng p.population) hlen
  have hsh : p.shuffle rng = ⟨rng p.population, 0⟩ := rfl
  refine ⟨?_, hperm, ?_⟩
  · rw [hsh, hmain]; simp
  · rw [hsh, hmain]
    simp [Population.next]

/-- C5 witness: the enumeration property at a concrete two-element
population whose generator reverses the sequence. -/
theorem shuffle_then_draws_enumerate_case :
    (List.reverse [Individual.Healthy, Individual.Sick]).Perm
        [Individual.Healthy, Individual.Sick] ∧
    (((Population.shuffle ⟨[Individual.Healthy, Individual.Sick], 5⟩ List.reverse).nexts 2).1
        = [some Individual.Sick, some Individual.Healthy] ∧
      (List.reverse [Individual.Healthy, Individual.Sick]).Perm
          [Individual.Healthy, Individual.Sick] ∧
      (((Population.shuffle ⟨[Individual.Healthy, Individual.Sick], 5⟩
            List.reverse).nexts 2).2).next
        = (none, ((Population.shuffle ⟨[Individual.Healthy, Individual.Sick], 5⟩
            List.reverse).nexts 2).2)) :=
  ⟨by decide,
    shuffle_then_draws_enumerate ⟨[Individual.Healthy, Individual.Sick], 5⟩
      List.reverse (by decide)⟩

/-- Index of the first occurrence of `x` in the sequence; this follows
the spec's words "scans in sequence order for the first Healthy element"
and is compared with the source scan `immunizeFrom`. -/
def firstIdx (x : Individual) : List Individual → Option Nat
  | [] => none
  | i :: rest => if i = x then some 0 else (firstIdx x rest).map (fun k => k + 1)

theorem firstIdx_none_iff (x : Individual) : ∀ l : List Individual,
    firstIdx x l = none ↔ x ∉ l
  | [] => by simp [firstIdx]
  | i :: rest => by
    by_cases h : i = x
    · subst h; simp [firstIdx]
    · have h' : ¬ x = i := fun hx => h hx.symm
      simp [firstIdx, h, h', firstIdx_none_iff x rest]

theorem immunizeFrom_none_iff : ∀ l : List Individual,
    immunizeFrom l = none ↔ Individual.Healthy ∉ l
  | [] => by simp [immunizeFrom]
  | i :: rest => by
    by_cases h : i = Individual.Healthy
    · subst h; simp [immunizeFrom]
    · have h' : ¬ Individual.Healthy = i := fun hx => h hx.symm
      simp [immunizeFrom, h, h', immunizeFrom_none_iff rest]

theorem reverseImmunizeFrom_none_iff : ∀ l : List Individual,
    reverseImmunizeFrom l = none ↔ Individual.Immune ∉ l
  | [] => by simp [reverseImmunizeFrom]
  | i :: rest => by
    by_cases h : i = Individual.Immune
    · subst h; simp [reverseImmunizeFrom]
    · have h' : ¬ Individual.Immune = i := fun hx => h hx.symm
      simp [reverseImmunizeFrom, h, h', reverseImmunizeFrom_none_iff rest]

theorem immunizeFrom_eq_set : ∀ (l : List Individual) (k : Nat),
    firstIdx Individual.Healthy l = some k →
    immunizeFrom l = some (l.set k Individual.Immune)
  | [], k => by simp [firstIdx]
  | i :: rest, k => by
    intro h
    by_cases hi : i = Individual.Healthy
    · simp only [firstIdx, if_pos hi, Option.some.injEq] at h
      subst h
      simp [immunizeFrom, hi]
    · simp only [firstIdx, if_neg hi] at h
      obtain ⟨m, hm, hk⟩ := Option.map_eq_some'.mp h
      subst hk
      simp [immunizeFrom, hi, immunizeFrom_eq_set rest m hm]

theorem firstIdx_first : ∀ (l : List Individual) (k : Nat),
    firstIdx Individual.Healthy l = some k →
    l.get? k = some Individual.Healthy ∧
    ∀ j, j < k → l.get? j ≠ some Individual.Healthy
  | [], k => by simp [firstIdx]
  | i :: rest, k => by
    intro h
    by_cases hi : i = Individual.Healthy
    · simp only [firstIdx, if_pos hi, Option.some.injEq] at h
      subst h
      subst hi
      exact ⟨rfl, fun j hj => absurd hj (Nat.not_lt_zero j)⟩
    · simp only [firstIdx, if_neg hi] at h
      obtain ⟨m, hm, hk⟩ := Option.map_eq_some'.mp h
      subst hk
      obtain ⟨ih1, ih2⟩ := firstIdx_first rest m hm
      refine ⟨ih1, ?_⟩
      intro j hj
      match j with
      | 0 =>
        simp only [List.get?]
        intro hc
        exact hi (Option.some.inj hc)
      | Nat.succ j' =>
        simp only [List.get?]
        exact ih2 j' (by omega)

/-- C6: `Population::immunize` fails with `NoHealthyLeft` exactly when
the population contains no `Healthy` individual (in the error case the
population is returned unchanged, the model being functional); otherwise
it converts exactly the first `Healthy` element in sequence order to
`Immune` — the resulting sequence is the original with the single
position of the first `Healthy` overwritten — and the cursor and all
other elements are unchanged. -/
theorem population_immunize_first_healthy (p : Population) :
    (p.immunize = Except.error ActionError.NoHealthyLeft ↔
      Individual.Healthy ∉ p.population) ∧
    (Individual.Healthy ∈ p.population ↔
      firstIdx Individual.Healthy p.population ≠ none) ∧
    ∀ k, firstIdx Individual.Healthy p.population = some k →
      p.immunize = Except.ok ⟨p.population.set k Individual.Immune, p.counter⟩ ∧
      p.population.get? k = some Individual.Healthy ∧
      ∀ j, j < k → p.population.get? j ≠ some Individual.Healthy := by
  refine ⟨?_, ?_, ?_⟩
  · rw [← immunizeFrom_none_iff]
    unfold Population.immunize
    cases himm : immunizeFrom p.population <;> simp
  · rw [ne_eq, firstIdx_none_iff]
    simp
  · intro k hk
    obtain ⟨h2, h3⟩ := firstIdx_first p.population k hk
    refine ⟨?_, h2, h3⟩
    unfold Population.immunize
    rw [immunizeFrom_eq_set p.population k hk]

/-- C6 witness: the first `Healthy` of a concrete population sits at
index 1 and is the one converted. -/
theorem population_immunize_first_healthy_case :
    (firstIdx Individual.Healthy
        [Individual.Immune, Individual.Healthy, Individual.Healthy] = some 1) ∧
    Population.immunize ⟨[Individual.Immune, Individual.Healthy, Individual.Healthy], 7⟩
      = Except.ok ⟨[Individual.Immune, Individual.Immune, Individual.Healthy], 7⟩ :=
  ⟨by decide,
    ((population_immunize_first_healthy
        ⟨[Individual.Immune, Individual.Healthy, Individual.Healthy], 7⟩).2.2 1
      (by decide)).1⟩

theorem immunizeFrom_counts : ∀ (l l' : List Individual), immunizeFrom l = some l' →
    l'.count Individual.Healthy + 1 = l.count Individual.Healthy ∧
    l'.count Individual.Immune = l.count Individual.Immune + 1
  | [], l' => by simp [immunizeFrom]
  | i :: rest, l' => by
    intro h
    by_cases hi : i = Individual.Healthy
    · subst hi
      rw [show immunizeFrom (Individual.Healthy :: rest)
          = some (Individual.Immune :: rest) from rfl] at h
      obtain rfl := Option.some.inj h
      simp [List.count_cons]
    · simp only [immunizeFrom, if_neg hi] at h
      obtain ⟨t, ht, hl'⟩ := Option.map_eq_some'.mp h
      subst hl'
      obtain ⟨ih1, ih2⟩ := immunizeFrom_counts rest t ht
      constructor <;> simp [List.count_cons] <;> omega

theorem reverseImmunizeFrom_counts : ∀ (l l' : List Individual),
    reverseImmunizeFrom l = some l' →
    l'.count Individual.Immune + 1 = l.count Individual.Immune ∧
    l'.count Individual.Healthy = l.count Individual.Healthy + 1
  | [], l' => by simp [reverseImmunizeFrom]
  | i :: rest, l' => by
    intro h
    by_cases hi : i = Individual.Immune
    · subst hi
      rw [show reverseImmunizeFrom (Individual.Immune :: rest)
          = some (Individual.Healthy :: rest) from rfl] at h
      obtain rfl := Option.some.inj h
      simp [List.count_cons]
    · simp only [reverseImmunizeFrom, if_neg hi] at h
      obtain ⟨t, ht, hl'⟩ := Option.map_eq_some'.mp h
      subst hl'
      obtain ⟨ih1, ih2⟩ := reverseImmunizeFrom_counts rest t ht
      constructor <;> simp [List.count_cons] <;> omega

/-- C7: on a population containing at least one `Healthy` individual,
`immunize` followed by `reverse_immunize` succeeds and restores the
original counts of `Healthy` and of `Immune` individuals. -/
theorem immunize_reverse_restores_counts (p : Population)
    (h : Individual.Healthy ∈ p.population) :
    (p.immunizeRoundTrip).map
        (fun r => (r.population.count Individual.Healthy,
          r.population.count Individual.Immune))
      = Except.ok (p.population.count Individual.Healthy,
          p.population.count Individual.Immune) := by
  obtain ⟨l', himm⟩ : ∃ l', immunizeFrom p.population = some l' := by
    cases hi : immunizeFrom p.population with
    | none => exact absurd ((immunizeFrom_none_iff p.population).mp hi) (not_not_intro h)
    | some l' => exact ⟨l', rfl⟩
  obtain ⟨hH1, hI1⟩ := immunizeFrom_counts p.population l' himm
  have himmune : Individual.Immune ∈ l' := List.count_pos_iff.mp (by omega)
  obtain ⟨l'', hrev⟩ : ∃ l'', reverseImmunizeFrom l' = some l'' := by
    cases hr : reverseImmunizeFrom l' with
    | none => exact absurd ((reverseImmunizeFrom_none_iff l').mp hr) (not_not_intro himmune)
    | some l'' => exact ⟨l'', rfl⟩
  obtain ⟨hI2, hH2⟩ := reverseImmunizeFrom_counts l' l'' hrev
  have hrun : p.immunizeRoundTrip = Except.ok ⟨l'', p.counter⟩ := by
    unfold Population.immunizeRoundTrip
    have e1 : p.immunize = Except.ok ⟨l', p.counter⟩ := by
      unfold Population.immunize
      rw [himm]
    rw [e1]
    show Population.reverse_immunize ⟨l', p.counter⟩ = _
    unfold Population.reverse_immunize
    rw [hrev]
  rw [hrun]
  have e2 : l''.count Individual.Healthy = p.population.count Individual.Healthy := by omega
  have e3 : l''.count Individual.Immune = p.population.count Individual.Immune := by omega
  simp [Except.map, e2, e3]

/-- C7 witness: the round trip at a concrete population with one
`Healthy` and one `Infected1` individual. -/
theorem immunize_reverse_restores_counts_case :
    Individual.Healthy ∈ [Individual.Healthy, Individual.Infected1] ∧
    (Population.immunizeRoundTrip ⟨[Individual.Healthy, Individual.Infected1], 0⟩).map
        (fun r => (r.population.count Individual.Healthy,
          r.population.count Individual.Immune))
      = Except.ok (([Individual.Healthy, Individual.Infected1]).count Individual.Healthy,
          ([Individual.Healthy, Individual.Infected1]).count Individual.Immune) :=
  ⟨by decide,
    immunize_reverse_restores_counts ⟨[Individual.Healthy, Individual.Infected1], 0⟩
      (by decide)⟩

theorem foldl_min_le : ∀ (xs : List Nat) (x : Nat),
    xs.foldl Nat.min x ≤ x ∧ ∀ y ∈ xs, xs.foldl Nat.min x ≤ y
  | [], x => ⟨Nat.le_refl x, by simp⟩
  | y :: ys, x => by
    obtain ⟨h1, h2⟩ := foldl_min_le ys (Nat.min x y)
    simp only [List.foldl_cons]
    refine ⟨Nat.le_trans h1 (Nat.min_le_left x y), ?_⟩
    intro z hz
    rcases List.mem_cons.mp hz with rfl | hz'
    · exact Nat.le_trans h1 (Nat.min_le_right x z)
    · exact h2 z hz'

theorem foldl_max_ge : ∀ (xs : List Nat) (x : Nat),
    x ≤ xs.foldl Nat.max x ∧ ∀ y ∈ xs, y ≤ xs.foldl Nat.max x
  | [], x => ⟨Nat.le_refl x, by simp⟩
  | y :: ys, x => by
    obtain ⟨h1, h2⟩ := foldl_max_ge ys (Nat.max x y)
    simp only [List.foldl_cons]
    refine ⟨Nat.le_trans (Nat.le_max_left x y) h1, ?_⟩
    intro z hz
    rcases List.mem_cons.mp hz with rfl | hz'
    · exact Nat.le_trans (Nat.le_max_right x z) h1
    · exact h2 z hz'

theorem foldl_min_mem : ∀ (xs : List Nat) (x : Nat),
    xs.foldl Nat.min x = x ∨ xs.foldl Nat.min x ∈ xs
  | [], _ => Or.inl rfl
  | y :: ys, x => by
    simp only [List.foldl_cons]
    have hsplit : Nat.min x y = x ∨ Nat.min x y = y := by
      rcases Nat.le_total x y with h | h
      · exact Or.inl (Nat.min_eq_left h)
      · exact Or.inr (Nat.min_eq_right h)
    rcases foldl_min_mem ys (Nat.min x y) with h | h
    · rcases hsplit with h' | h'
      · exact Or.inl (by rw [h, h'])
      · exact Or.inr (by rw [h, h']; exact List.mem_cons_self y ys)
    · exact Or.inr (List.mem_cons_of_mem y h)

theorem foldl_max_mem : ∀ (xs : List Nat) (x : Nat),
    xs.foldl Nat.max x = x ∨ xs.foldl Nat.max x ∈ xs
  | [], _ => Or.inl rfl
  | y :: ys, x => by
    simp only [List.foldl_cons]
    have hsplit : Nat.max x y = x ∨ Nat.max x y = y := by
      rcases Nat.le_total x y with h | h
      · exact Or.inr (Nat.max_eq_right h)
      · exact Or.inl (Nat.max_eq_left h)
    rcases foldl_max_mem ys (Nat.max x y) with h | h
    · rcases hsplit with h' | h'
      · exact Or.inl (by rw [h, h'])
      · exact Or.inr (by rw [h, h']; exact List.mem_cons_self y ys)
    · exact Or.inr (List.mem_cons_of_mem y h)

theorem iterMin_eq_iterMax_iff : ∀ l : List Nat,
    iterMin l = iterMax l ↔ ∀ x ∈ l, ∀ y ∈ l, x = y
  | [] => by simp [iterMin, iterMax]
  | x :: xs => by
    simp only [iterMin, iterMax, Option.some.injEq]
    constructor
    · intro h z hz w hw
      obtain ⟨hm1, hm2⟩ := foldl_min_le xs x
      obtain ⟨hM1, hM2⟩ := foldl_max_ge xs x
      have hz' : xs.foldl Nat.min x ≤ z ∧ z ≤ xs.foldl Nat.max x := by
        rcases List.mem_cons.mp hz with rfl | hz'
        · exact ⟨hm1, hM1⟩
        · exact ⟨hm2 z hz', hM2 z hz'⟩
      have hw' : xs.foldl Nat.min x ≤ w ∧ w ≤ xs.foldl Nat.max x := by
        rcases List.mem_cons.mp hw with rfl | hw'
        · exact ⟨hm1, hM1⟩
        · exact ⟨hm2 w hw', hM2 w hw'⟩
      omega
    · intro hall
      have hx : x ∈ x :: xs := List.mem_cons_self x xs
      have h1 : xs.foldl Nat.min x = x := by
        rcases foldl_min_mem xs x with h | h
        · exact h
        · exact hall _ (List.mem_cons_of_mem x h) x hx
      have h2 : xs.foldl Nat.max x = x := by
        rcases foldl_max_mem xs x with h | h
        · exact h
        · exact hall _ (List.mem_cons_of_mem x h) x hx
      rw [h1, h2]

theorem Spreading.toNat_inj : ∀ s t : Spreading, s.toNat = t.toNat ↔ s = t := by
  intro s t
  cases s <;> cases t <;> decide

/-- C9: each fatal precondition violation panics exactly when its
precondition is violated — `Board::new` yields the panic (modelled as
`none`) exactly when the given buildings do not all share the same
spreading mode; `Population::update` panics exactly when the new
sequence's length differs from the current one; `Board::spreading`
panics exactly when the board has no buildings. -/
theorem fatal_precondition_panics :
    (∀ (pop : Population) (blds : List Building),
      Board.new pop blds = none
        ↔ ¬ ∀ b1 ∈ blds, ∀ b2 ∈ blds, b1.spreading = b2.spreading) ∧
    (∀ (p : Population) (np : List Individual),
      p.update np = none ↔ p.population.length ≠ np.length) ∧
    (∀ b : Board, Board.spreading b = none ↔ b.buildings = []) := by
  refine ⟨?_, ?_, ?_⟩
  · intro pop blds
    have hiff : (iterMin (blds.map fun b => b.spreading.toNat)
        = iterMax (blds.map fun b => b.spreading.toNat))
        ↔ ∀ b1 ∈ blds, ∀ b2 ∈ blds, b1.spreading = b2.spreading := by
      rw [iterMin_eq_iterMax_iff]
      constructor
      · intro h b1 hb1 b2 hb2
        exact (Spreading.toNat_inj _ _).mp
          (h _ (List.mem_map_of_mem _ hb1) _ (List.mem_map_of_mem _ hb2))
      · intro h x hx y hy
        obtain ⟨b1, hb1, rfl⟩ := List.mem_map.mp hx
        obtain ⟨b2, hb2, rfl⟩ := List.mem_map.mp hy
        rw [h b1 hb1 b2 hb2]
    unfold Board.new
    by_cases hcond : iterMin (blds.map fun b => b.spreading.toNat)
        = iterMax (blds.map fun b => b.spreading.toNat)
    · rw [if_pos hcond]
      exact iff_of_false (Option.some_ne_none _) (not_not_intro (hiff.mp hcond))
    · rw [if_neg hcond]
      exact iff_of_true rfl (fun hall => hcond (hiff.mpr hall))
  · intro p np
    unfold Population.update
    by_cases hlen : p.population.length = np.length
    · rw [if_pos hlen]
      exact iff_of_false (Option.some_ne_none _) (not_not_intro hlen)
    · rw [if_neg hlen]
      exact iff_of_true rfl hlen
  · intro b
    cases hb : b.buildings with
    | nil => simp [Board.spreading, hb]
    | cons x xs => simp [Board.spreading, hb]

theorem initial_table_of_build (bb : BoardBuilder) :
    (bb.build).counting_table
      = ⟨[bb.healthy], [bb.infected1], [bb.infected2], [bb.infected3],
          [bb.sick], [bb.immune]⟩ := by
  have h : (bb.build).counting_table
      = initialCountingTable
          (List.replicate bb.healthy Individual.Healthy
            ++ List.replicate bb.infected1 Individual.Infected1
            ++ List.replicate bb.infected2 Individual.Infected2
            ++ List.replicate bb.infected3 Individual.Infected3
            ++ List.replicate bb.sick Individual.Sick
            ++ List.replicate bb.immune Individual.Immune) := rfl
  rw [h]
  unfold initialCountingTable
  simp [CountingTable.mk.injEq, List.count_append, List.count_replicate]

/-- C8: a simulation plan with zero replicates produces an empty report
whose `average_counting_table` has one row per health state and zero
columns; a plan with zero days produces, per replicate, a one-column
counting table equal to the template board's initial counts. -/
theorem simulation_run_degenerate_plans (bb : BoardBuilder) (nsim days : Nat)
    (rngs : Nat → Nat → List Individual → List Individual)
    (cg : List Individual → Individual → Individual) :
    (nsim = 0 →
      ((SimulationBuilder.build ⟨bb, ⟨nsim, days⟩⟩).run rngs cg).counting_tables = [] ∧
      ((SimulationBuilder.build ⟨bb, ⟨nsim, days⟩⟩).run rngs
          cg).average_counting_table.dim = (6, 0)) ∧
    (days = 0 →
      ((SimulationBuilder.build ⟨bb, ⟨nsim, days⟩⟩).run rngs cg).counting_tables
        = List.replicate nsim
            ⟨[bb.healthy], [bb.infected1], [bb.infected2], [bb.infected3],
              [bb.sick], [bb.immune]⟩) := by
  constructor
  · intro h0
    subst h0
    exact ⟨rfl, rfl⟩
  · intro h0
    subst h0
    have hrun : ((SimulationBuilder.build ⟨bb, ⟨nsim, 0⟩⟩).run rngs cg).counting_tables
        = (List.range nsim).map (fun _ => (bb.build).counting_table) := rfl
    rw [hrun, List.map_const', List.length_range, initial_table_of_build]

/-- C8 witness: a zero-replicate plan yields the empty report with a
six-row, zero-column average, and a two-replicate, zero-day plan yields
two copies of the initial one-column table. -/
theorem simulation_run_degenerate_plans_case :
    ((SimulationBuilder.build ⟨⟨2, 1, 0, 0, 0, 0, [(1, 1)], Spreading.OneNear⟩,
        ⟨0, 3⟩⟩).run (fun _ _ l => l) (fun _ i => i)).counting_tables = [] ∧
    ((SimulationBuilder.build ⟨⟨2, 1, 0, 0, 0, 0, [(1, 1)], Spreading.OneNear⟩,
        ⟨0, 3⟩⟩).run (fun _ _ l => l)
        (fun _ i => i)).average_counting_table.dim = (6, 0) ∧
    ((SimulationBuilder.build ⟨⟨2, 1, 0, 0, 0, 0, [(1, 1)], Spreading.OneNear⟩,
        ⟨2, 0⟩⟩).run (fun _ _ l => l) (fun _ i => i)).counting_tables
      = List.replicate 2 ⟨[2], [1], [0], [0], [0], [0]⟩ :=
  ⟨((simulation_run_degenerate_plans ⟨2, 1, 0, 0, 0, 0, [(1, 1)], Spreading.OneNear⟩
      0 3 (fun _ _ l => l) (fun _ i => i)).1 rfl).1,
    ((simulation_run_degenerate_plans ⟨2, 1, 0, 0, 0, 0, [(1, 1)], Spreading.OneNear⟩
      0 3 (fun _ _ l => l) (fun _ i => i)).1 rfl).2,
    (simulation_run_degenerate_plans ⟨2, 1, 0, 0, 0, 0, [(1, 1)], Spreading.OneNear⟩
      2 0 (fun _ _ l => l) (fun _ i => i)).2 rfl⟩

/-- C10: on a report holding zero counting tables, `healthy` returns the
empty list and `average_counting_table` returns a six-row, zero-column
result, while `healthy_transpose` and `average_healthy` index the first
counting table unconditionally and therefore panic — modelled by `none`
— instead of returning an empty result. -/
theorem empty_report_views (r : Report) (h : r.counting_tables = []) :
    r.healthy = [] ∧
    r.average_counting_table = ⟨(6, 0), List.replicate 6 []⟩ ∧
    r.healthy_transpose = none ∧
    r.average_healthy = none := by
  obtain ⟨cts⟩ := r
  simp only at h
  subst h
  exact ⟨rfl, rfl, rfl, rfl⟩

/-- C10 witness: the four behaviours at the concrete empty report. -/
theorem empty_report_views_case :
    (Report.mk []).healthy = [] ∧
    (Report.mk []).average_counting_table = ⟨(6, 0), List.replicate 6 []⟩ ∧
    (Report.mk []).healthy_transpose = none ∧
    (Report.mk []).average_healthy = none :=
  empty_report_views ⟨[]⟩ rfl
